import Mathlib

/-!
Verification of the sct-agent command-execution agent against its
natural-language specification.  The Go source is shallowly embedded:
pure computations become Lean functions, the store becomes a list of job
records, and the concurrent executor becomes a labelled step relation.
Machine integers are modelled as `Int`, timestamps as `Int` milliseconds,
Go `nil`-able pointers as `Option`.
-/

namespace SctAgent

/-- Job status constants from `internal/storage/models.go`. -/
inductive JobStatus
  | queued
  | running
  | completed
  | failed
  | cancelled
deriving DecidableEq, Repr

/-- The string value carried by each `JobStatus` constant (Go `JobStatus` is a string type). -/
def JobStatus.str : JobStatus → String
  | .queued => "queued"
  | .running => "running"
  | .completed => "completed"
  | .failed => "failed"
  | .cancelled => "cancelled"

/-- Terminal statuses: `completed`, `failed`, `cancelled`. -/
def isTerminal : JobStatus → Bool
  | .completed => true
  | .failed => true
  | .cancelled => true
  | _ => false

/-- The `Job` record from `internal/storage/models.go`.  Pointer fields
(`StartedAt`, `CompletedAt`, `ExitCode`) become `Option`; `time.Time`
becomes an `Int` timestamp. -/
structure Job where
  id : String
  command : String
  args : List String
  workingDir : String
  env : List (String × String)
  timeout : Int
  priority : String
  tags : List (String × String)
  status : JobStatus
  createdAt : Int
  startedAt : Option Int
  completedAt : Option Int
  exitCode : Option Int
  stdout : String
  stderr : String
  error : String
  durationMs : Int
deriving DecidableEq, Repr

/-- The `ExecuteRequest` body from `internal/storage/models.go`. -/
structure ExecuteRequest where
  command : String
  args : List String
  workingDir : String
  env : List (String × String)
  timeout : Int
  priority : String
  tags : List (String × String)
deriving DecidableEq, Repr

/-- `Memory.Get` from `internal/storage/memory.go`: lookup by id. -/
def getJob : List Job → String → Option Job
  | [], _ => none
  | j :: rest, id => if j.id = id then some j else getJob rest id

/-- `Memory.Save` from `internal/storage/memory.go`: upsert by id
(replace the record with this id, or append when absent). -/
def saveJob : List Job → Job → List Job
  | [], j => [j]
  | k :: rest, j => if k.id = j.id then j :: rest else k :: saveJob rest j

/-- The two `continue` guards of `Memory.List`: a job is kept when the
status filter is empty or matches exactly, and when `since` is absent or
`created_at` is not before it. -/
def passesFilter (j : Job) (status : String) (since : Option Int) : Bool :=
  (decide (status = "" ∨ j.status.str = status)) &&
    (match since with
     | none => true
     | some s => decide (¬ j.createdAt < s))

/-- The `offset` block of `Memory.List`: `if offset > 0 { if offset >=
len(allJobs) { return empty }; allJobs = allJobs[offset:] }`. -/
def pageOffset (offset : Int) (l : List Job) : List Job :=
  if 0 < offset then
    if (l.length : Int) ≤ offset then ([] : List Job)
    else l.drop offset.toNat
  else l

/-- The `limit` block of `Memory.List`: `if limit > 0 && len(allJobs) >
limit { allJobs = allJobs[:limit] }`. -/
def pageLimit (limit : Int) (l : List Job) : List Job :=
  if 0 < limit ∧ limit < (l.length : Int) then l.take limit.toNat else l

/-- `Memory.List` from `internal/storage/memory.go`: filter, count the
total before pagination, then apply `offset` (with the `offset >= len`
early return) and `limit` (only when strictly positive). -/
def listJobs (jobs : List Job) (status : String) (limit offset : Int) (since : Option Int) :
    List Job × Nat :=
  (pageLimit limit (pageOffset offset (jobs.filter (fun j => passesFilter j status since))),
   (jobs.filter (fun j => passesFilter j status since)).length)

/-- `Memory.CountByStatus` from `internal/storage/memory.go`. -/
def countByStatus (jobs : List Job) (status : JobStatus) : Nat :=
  jobs.countP (fun j => decide (j.status = status))

/-- Outcome of Go's `cmd.Wait()` in `runCommand`: success, an
`*exec.ExitError` carrying an exit code, or another error (signal,
framework failure) with no extractable code. -/
inductive WaitResult
  | success
  | exitError (msg : String) (code : Int)
  | otherError (msg : String)
deriving DecidableEq, Repr

/-- Value of `ctx.Err()` after the wait: `nil`, `context.DeadlineExceeded`,
or `context.Canceled`. -/
inductive CtxErr
  | none
  | deadlineExceeded
  | canceled
deriving DecidableEq, Repr

/-- The post-wait terminal-status computation of `Executor.runCommand`
(the code from `err = cmd.Wait()` to the end of the function): record
the captured output, derive status/error/exit_code from the wait result,
then override status/error/stderr from the context cause. -/
def runCommandWait (job : Job) (outStr errStr : String) (w : WaitResult) (c : CtxErr) : Job :=
  let j1 := { job with stdout := outStr, stderr := errStr }
  let j2 :=
    match w with
    | .success => { j1 with status := .completed, exitCode := some 0 }
    | .exitError msg code => { j1 with status := .failed, error := msg, exitCode := some code }
    | .otherError msg => { j1 with status := .failed, error := msg, exitCode := some (-1) }
  match c with
  | .deadlineExceeded =>
      { j2 with status := .failed, error := "command timed out",
                stderr := if j2.stderr = "" then "Command execution timed out" else j2.stderr }
  | .canceled =>
      { j2 with status := .cancelled, error := "command cancelled",
                stderr := if j2.stderr = "" then "Command execution cancelled" else j2.stderr }
  | .none => j2

/-- The early-return failure paths of `runCommand` (pipe creation or
`cmd.Start()` failing): `status = failed`, descriptive error,
`exit_code = -1`, no output captured. -/
def spawnFailJob (j : Job) (msg : String) : Job :=
  { j with status := .failed, error := msg, exitCode := some (-1) }

/-- The `queued → running` write of `executeJob` (performed
unconditionally after slot acquisition, with no status re-check). -/
def startRunning (j : Job) (now : Int) : Job :=
  { j with status := .running, startedAt := some now }

/-- The finalization write of `executeJob` after `runCommand` returns:
`completed_at = now`, `duration_ms = completed_at - started_at`. -/
def finalizeJob (j : Job) (tEnd : Int) : Job :=
  { j with completedAt := some tEnd,
           durationMs := match j.startedAt with
                         | some t => tEnd - t
                         | Option.none => 0 }

/-- The job record constructed by `Executor.Execute`: defaults applied
(`timeout = 1800` when 0, `priority = "normal"` when empty), a fresh id,
status `queued`, `created_at = now`, all other fields at their Go zero
values. -/
def executeAdmit (req : ExecuteRequest) (newId : String) (now : Int) : Job :=
  { id := newId
    command := req.command
    args := req.args
    workingDir := req.workingDir
    env := req.env
    timeout := if req.timeout = 0 then 1800 else req.timeout
    priority := if req.priority = "" then "normal" else req.priority
    tags := req.tags
    status := .queued
    createdAt := now
    startedAt := Option.none
    completedAt := Option.none
    exitCode := Option.none
    stdout := ""
    stderr := ""
    error := ""
    durationMs := 0 }

/-- The side effects of `Executor.Execute` in order: persist the job to
the store, then start the background supervisor goroutine. -/
inductive Effect
  | save (j : Job)
  | spawnSupervisor (j : Job)
deriving DecidableEq, Repr

/-- `Executor.Execute`: build the admission record, save it, spawn the
supervisor, return the record as of admission. -/
def executeEffects (req : ExecuteRequest) (newId : String) (now : Int) : Job × List Effect :=
  (executeAdmit req newId now,
   [Effect.save (executeAdmit req newId now), Effect.spawnSupervisor (executeAdmit req newId now)])

/-- The terminal-fields write of `Executor.CancelJob`: status
`cancelled`, `completed_at = now`, and `duration_ms` computed only when
`started_at` is present. -/
def cancelRecord (j : Job) (now : Int) : Job :=
  { j with status := .cancelled, completedAt := some now,
           durationMs := match j.startedAt with
                         | some t => now - t
                         | Option.none => j.durationMs }

/-- `Executor.CancelJob`: look up the job (`not found` error when
absent), reject non-queued/non-running statuses naming the current
status, otherwise fire and remove any registered cancel handle and save
the cancelled record.  Returns the new store, the new cancel table, and
whether a handle was fired. -/
def cancelJob (store : List Job) (cancelIds : List String) (id : String) (now : Int) :
    Except String (List Job × List String × Bool) :=
  match getJob store id with
  | Option.none => .error "job not found"
  | some job =>
    if job.status = .queued ∨ job.status = .running then
      .ok (saveJob store (cancelRecord job now), cancelIds.erase id, cancelIds.contains id)
    else
      .error ("job cannot be cancelled (status: " ++ job.status.str ++ ")")

/-- One iteration of `Executor.Shutdown`'s polling loop as observed by
the supervisor: the current `CountByStatus(running)` value and whether
`ctx.Done()` fires at this iteration's select. -/
structure PollObs where
  running : Nat
  ctxDone : Bool
deriving DecidableEq, Repr

/-- The polling loop of `Executor.Shutdown`: at each iteration, return
success (`some true`) when the running count is zero, else return the
deadline error (`some false`) when the context is done, else keep
polling.  `none` means the trace ended with the loop still spinning. -/
def shutdownPoll : List PollObs → Option Bool
  | [] => Option.none
  | o :: rest =>
      if o.running = 0 then some true
      else if o.ctxDone then some false
      else shutdownPoll rest

/-- The ticker interval of `Executor.Shutdown`'s polling loop, in
milliseconds (`time.NewTicker(100 * time.Millisecond)`). -/
def tickerIntervalMs : Nat := 100

/-- `Executor.Shutdown`: fire every registered cancel handle (without
removing the entries), then run the polling loop. -/
def shutdownModel (cancelIds : List String) (trace : List PollObs) : List String × Option Bool :=
  (cancelIds, shutdownPoll trace)

/-- Result of the auth middleware: pass the request on, or abort with a
401 JSON body carrying `error` and `message`. -/
inductive AuthResult
  | next
  | abort401 (err msg : String)
deriving DecidableEq, Repr

/-- `AuthMiddleware` from `internal/api/middleware.go`.  Go's
`c.GetHeader` returns the empty string for a missing header, so the
header is modelled as a plain `String`. -/
def authMiddleware (path authHeader : String) (apiKeys : List String) : AuthResult :=
  if path = "/health" then .next
  else if authHeader = "" then
    .abort401 "Authorization header required"
      "Please provide an Authorization header with Bearer token"
  else if authHeader.startsWith "Bearer " then
    if (authHeader.drop 7).trim = "" then
      .abort401 "Empty token" "Bearer token cannot be empty"
    else if (authHeader.drop 7).trim ∈ apiKeys then .next
    else .abort401 "Invalid API key" "The provided API key is not valid"
  else .abort401 "Bearer token required" "Authorization header must use Bearer token format"

/-- Whether the middleware aborted with a 401. -/
def is401 : AuthResult → Bool
  | .next => false
  | .abort401 _ _ => true

/-- Position of a supervisor goroutine (`executeJob`) in its control
flow: waiting on the semaphore, slot acquired but `running` not yet
written, command in flight after the `running` save, final record saved
with the slot still held, and slot released. -/
inductive Phase
  | admitted
  | acquired
  | active
  | finished
  | done
deriving DecidableEq, Repr

/-- Phases during which the supervisor holds a semaphore slot: from the
`e.semaphore <- struct{}{}` receive to the deferred release. -/
def Phase.holdsSlot : Phase → Bool
  | .acquired => true
  | .active => true
  | .finished => true
  | _ => false

/-- One admitted job together with its supervisor's phase. -/
structure Task where
  job : Job
  phase : Phase
deriving DecidableEq, Repr

/-- The executor state: every job ever admitted, with its supervisor
phase.  The store contents are the `job` fields. -/
abbrev SysState := List Task

/-- Number of supervisors currently holding a semaphore slot. -/
def heldCount (s : SysState) : Nat :=
  s.countP (fun t => t.phase.holdsSlot)

/-- Number of stored jobs with status `running`
(`CountByStatus(StatusRunning)`). -/
def runningCount (s : SysState) : Nat :=
  s.countP (fun t => decide (t.job.status = .running))

/-- Interleaved small-step semantics of the executor, one constructor
per atomic action of `Execute`, `executeJob`, `runCommand` and
`CancelJob`.  `admit` appends a queued job; `acquire` needs a free slot
(fewer than `maxC` held); `setRunning` writes `running` unconditionally,
exactly as `executeJob` does (no status re-check after slot
acquisition); `finishWait`/`finishSpawnFail` write the terminal record
computed by `runCommand` plus the finalization fields; `release` gives
the slot back only after the final save; `cancel` is `CancelJob`'s
write, allowed only on queued/running records and leaving the
supervisor phase untouched. -/
inductive Step (maxC : Nat) : SysState → SysState → Prop
  | admitJob (s : SysState) (req : ExecuteRequest) (newId : String) (now : Int) :
      Step maxC s (s ++ [⟨executeAdmit req newId now, .admitted⟩])
  | acquire (pre post : List Task) (t : Task) :
      t.phase = .admitted →
      heldCount (pre ++ t :: post) < maxC →
      Step maxC (pre ++ t :: post) (pre ++ ⟨t.job, .acquired⟩ :: post)
  | setRunning (pre post : List Task) (t : Task) (now : Int) :
      t.phase = .acquired →
      Step maxC (pre ++ t :: post) (pre ++ ⟨startRunning t.job now, .active⟩ :: post)
  | finishWait (pre post : List Task) (t : Task) (outStr errStr : String)
      (w : WaitResult) (c : CtxErr) (tEnd : Int) :
      t.phase = .active →
      Step maxC (pre ++ t :: post)
        (pre ++ ⟨finalizeJob (runCommandWait t.job outStr errStr w c) tEnd, .finished⟩ :: post)
  | finishSpawnFail (pre post : List Task) (t : Task) (msg : String) (tEnd : Int) :
      t.phase = .active →
      Step maxC (pre ++ t :: post)
        (pre ++ ⟨finalizeJob (spawnFailJob t.job msg) tEnd, .finished⟩ :: post)
  | release (pre post : List Task) (t : Task) :
      t.phase = .finished →
      Step maxC (pre ++ t :: post) (pre ++ ⟨t.job, .done⟩ :: post)
  | cancel (pre post : List Task) (t : Task) (now : Int) :
      (t.job.status = .queued ∨ t.job.status = .running) →
      Step maxC (pre ++ t :: post) (pre ++ ⟨cancelRecord t.job now, t.phase⟩ :: post)

/-- Reachability from the empty initial state. -/
def Reach (maxC : Nat) : SysState → SysState → Prop :=
  Relation.ReflTransGen (Step maxC)

/-- Per-task invariant: a `running` status is only ever held while the
supervisor is in its in-flight phase (which holds a slot), and once the
supervisor has written its final record the status is terminal. -/
def TaskOk (t : Task) : Prop :=
  (t.job.status = .running → t.phase = .active)
  ∧ ((t.phase = .finished ∨ t.phase = .done) → isTerminal t.job.status = true)

/-- Global invariant: slot accounting respects the semaphore capacity
and every task satisfies `TaskOk`. -/
def Inv (maxC : Nat) (s : SysState) : Prop :=
  heldCount s ≤ maxC ∧ ∀ t ∈ s, TaskOk t

/-- Sample request fixtures used in concrete witnesses. -/
def reqEcho : ExecuteRequest :=
  ⟨"echo", ["hi"], "", [], 0, "", []⟩

def reqSleep : ExecuteRequest :=
  ⟨"sleep", ["60"], "", [], 7, "high", []⟩

def jobEcho : Job := executeAdmit reqEcho "job-a" 10

def jobSleep : Job := executeAdmit reqSleep "job-b" 20

/-! ## Store lemmas -/

theorem pageOffset_eq (offset : Int) (l : List Job) :
    pageOffset offset l = l.drop offset.toNat := by
  unfold pageOffset
  by_cases h : 0 < offset
  · by_cases h2 : (l.length : Int) ≤ offset
    · have hlen : l.length ≤ offset.toNat := by omega
      simp [h, h2, (List.drop_eq_nil_of_le hlen).symm]
    · simp [h, h2]
  · have h0 : offset.toNat = 0 := by omega
    simp [h, h0]

theorem pageLimit_pos (limit : Int) (l : List Job) (h : 0 < limit) :
    pageLimit limit l = l.take limit.toNat := by
  unfold pageLimit
  by_cases h2 : limit < (l.length : Int)
  · simp [h, h2]
  · have hlen : l.length ≤ limit.toNat := by omega
    simp [h, h2, List.take_of_length_le hlen]

theorem pageLimit_nonpos (limit : Int) (l : List Job) (h : limit ≤ 0) :
    pageLimit limit l = l := by
  unfold pageLimit
  rw [if_neg]
  rintro ⟨h1, -⟩
  omega

/-- Claim C5: for every store contents and every `List` call, the
returned total counts the jobs passing the status filter (exact match
when non-empty) and the since filter (`created_at ≥ since`), before
pagination; and for a positive `limit` the returned items are the page
of at most `limit` of the filtered jobs after skipping the first
`offset` of them. -/
theorem list_total_and_page (jobs : List Job) (status : String) (limit offset : Int)
    (since : Option Int) :
    (listJobs jobs status limit offset since).2
        = (jobs.filter (fun j => passesFilter j status since)).length
    ∧ (0 < limit →
        (listJobs jobs status limit offset since).1
          = ((jobs.filter (fun j => passesFilter j status since)).drop offset.toNat).take
              limit.toNat) := by
  refine ⟨rfl, fun hl => ?_⟩
  show pageLimit limit (pageOffset offset _) = _
  rw [pageOffset_eq, pageLimit_pos _ _ hl]

theorem list_total_and_page_witness :
    (0 : Int) < 2
    ∧ (listJobs [jobEcho, jobSleep] "queued" 2 1 Option.none).1
        = (([jobEcho, jobSleep].filter
              (fun j => passesFilter j "queued" Option.none)).drop (1 : Int).toNat).take
            (2 : Int).toNat
    ∧ (listJobs [jobEcho, jobSleep] "queued" 2 1 Option.none).2
        = ([jobEcho, jobSleep].filter (fun j => passesFilter j "queued" Option.none)).length :=
  ⟨by decide,
   (list_total_and_page [jobEcho, jobSleep] "queued" 2 1 Option.none).2 (by decide),
   (list_total_and_page [jobEcho, jobSleep] "queued" 2 1 Option.none).1⟩

/-- Claim C10: `Memory.List` with a non-positive `limit` performs no
length truncation: it returns every job passing the filters after
skipping `offset`, not an empty page. -/
theorem list_nonpositive_limit_no_truncation (jobs : List Job) (status : String)
    (limit offset : Int) (since : Option Int) (h : limit ≤ 0) :
    (listJobs jobs status limit offset since).1
      = (jobs.filter (fun j => passesFilter j status since)).drop offset.toNat := by
  show pageLimit limit (pageOffset offset _) = _
  rw [pageOffset_eq, pageLimit_nonpos _ _ h]

/-- Modelled from the spec: the status and error of §4.2.2 step 6,
written as the spec orders the cases — context cause first, then the
wait result. -/
def specStep6StatusError (w : WaitResult) (c : CtxErr) : JobStatus × String :=
  if c = .deadlineExceeded then (.failed, "command timed out")
  else if c = .canceled then (.cancelled, "command cancelled")
  else
    match w with
    | .success => (.completed, "")
    | .exitError msg _ => (.failed, msg)
    | .otherError msg => (.failed, msg)

/-- Modelled from the spec: the exit code of §4.2.2 step 6 for the
cause-free cases — 0 on a successful wait, the extracted exit code for
an exit error, `-1` when unavailable. -/
def specStep6Exit : WaitResult → Option Int
  | .success => some 0
  | .exitError _ code => some code
  | .otherError _ => some (-1)

/-- Modelled from the spec: the stderr of §4.2.2 step 6 — filled with a
placeholder when empty in the two cause branches, the captured stderr
otherwise.  The placeholder texts are the reference literals. -/
def specStep6Stderr (errStr : String) (c : CtxErr) : String :=
  if c = .deadlineExceeded then
    (if errStr = "" then "Command execution timed out" else errStr)
  else if c = .canceled then
    (if errStr = "" then "Command execution cancelled" else errStr)
  else errStr

/-- Claim C3: the supervisor's terminal-status computation is the exact
case split of spec §4.2.2 step 6 — deadline cause gives `failed` with
"command timed out", cancel cause gives `cancelled` with "command
cancelled" (stderr placeholders when empty), a cause-free successful
wait gives `completed` with exit code 0, a cause-free failed wait gives
`failed` with the wait message and the extracted or `-1` exit code; the
cause check is applied last and overrides the wait-based status. -/
theorem runCommand_matches_spec_step6 (job : Job) (outStr errStr : String)
    (w : WaitResult) (c : CtxErr) (herr : job.error = "") :
    (runCommandWait job outStr errStr w c).status = (specStep6StatusError w c).1
    ∧ (runCommandWait job outStr errStr w c).error = (specStep6StatusError w c).2
    ∧ (runCommandWait job outStr errStr w c).stderr = specStep6Stderr errStr c
    ∧ (c = CtxErr.none → (runCommandWait job outStr errStr w c).exitCode = specStep6Exit w) := by
  cases c <;> cases w <;>
    simp [runCommandWait, specStep6StatusError, specStep6Stderr, specStep6Exit, herr]

theorem runCommand_matches_spec_step6_witness :
    jobEcho.error = ""
    ∧ ((runCommandWait jobEcho "hi\n" "" WaitResult.success CtxErr.none).status
          = (specStep6StatusError WaitResult.success CtxErr.none).1
       ∧ (runCommandWait jobEcho "hi\n" "" WaitResult.success CtxErr.none).error
          = (specStep6StatusError WaitResult.success CtxErr.none).2
       ∧ (runCommandWait jobEcho "hi\n" "" WaitResult.success CtxErr.none).stderr
          = specStep6Stderr "" CtxErr.none
       ∧ (CtxErr.none = CtxErr.none →
            (runCommandWait jobEcho "hi\n" "" WaitResult.success CtxErr.none).exitCode
              = specStep6Exit WaitResult.success)) :=
  ⟨rfl, runCommand_matches_spec_step6 jobEcho "hi\n" "" WaitResult.success CtxErr.none rfl⟩

/-- Claim C1 fails on the code: when the child exits successfully in
the race window where the deadline has already expired, `runCommand`
overrides the status to `failed` but leaves the exit code it just set
to 0, and `executeJob` persists that record — so a record with
`exit_code = 0` and `status = failed` is observable through the store.
This trace admits a job, acquires the slot, sets it running, and
finishes with a successful wait under a `deadline_exceeded` cause. -/
theorem race_window_exit_code_zero_failed :
    Reach 1 []
      [⟨finalizeJob
          (runCommandWait (startRunning jobEcho 11) "hi\n" ""
            WaitResult.success CtxErr.deadlineExceeded) 12, Phase.finished⟩]
    ∧ (finalizeJob
          (runCommandWait (startRunning jobEcho 11) "hi\n" ""
            WaitResult.success CtxErr.deadlineExceeded) 12).exitCode = some 0
    ∧ (finalizeJob
          (runCommandWait (startRunning jobEcho 11) "hi\n" ""
            WaitResult.success CtxErr.deadlineExceeded) 12).status = JobStatus.failed
    ∧ (finalizeJob
          (runCommandWait (startRunning jobEcho 11) "hi\n" ""
            WaitResult.success CtxErr.deadlineExceeded) 12).error = "command timed out" := by
  refine ⟨?_, rfl, rfl, rfl⟩
  have h1 : Step 1 [] [⟨jobEcho, Phase.admitted⟩] :=
    Step.admitJob [] reqEcho "job-a" 10
  have h2 : Step 1 [⟨jobEcho, Phase.admitted⟩] [⟨jobEcho, Phase.acquired⟩] :=
    Step.acquire [] [] ⟨jobEcho, Phase.admitted⟩ rfl (by decide)
  have h3 : Step 1 [⟨jobEcho, Phase.acquired⟩] [⟨startRunning jobEcho 11, Phase.active⟩] :=
    Step.setRunning [] [] ⟨jobEcho, Phase.acquired⟩ 11 rfl
  have h4 : Step 1 [⟨startRunning jobEcho 11, Phase.active⟩]
      [⟨finalizeJob
          (runCommandWait (startRunning jobEcho 11) "hi\n" ""
            WaitResult.success CtxErr.deadlineExceeded) 12, Phase.finished⟩] :=
    Step.finishWait [] [] ⟨startRunning jobEcho 11, Phase.active⟩ "hi\n" ""
      WaitResult.success CtxErr.deadlineExceeded 12 rfl
  exact Relation.ReflTransGen.tail
    (Relation.ReflTransGen.tail
      (Relation.ReflTransGen.tail (Relation.ReflTransGen.single h1) h2) h3) h4

theorem list_nonpositive_limit_no_truncation_witness :
    (0 : Int) ≤ 0
    ∧ (listJobs [jobEcho, jobSleep] "" 0 0 Option.none).1
        = ([jobEcho, jobSleep].filter (fun j => passesFilter j "" Option.none)).drop
            (0 : Int).toNat
    ∧ (listJobs [jobEcho, jobSleep] "" 0 0 Option.none).1 = [jobEcho, jobSleep] :=
  ⟨by decide,
   list_nonpositive_limit_no_truncation [jobEcho, jobSleep] "" 0 0 Option.none (by decide),
   by decide⟩

/-- Claim C2 fails on the code: `executeJob` never re-reads the stored
job after acquiring its semaphore slot, so a cancel issued while the job
was still queued is overwritten — the supervisor writes `running` and a
`started_at` over the terminal `cancelled` record and proceeds to spawn.
This trace admits a job, acquires the slot, cancels the still-queued
job (a terminal `cancelled` record with no `started_at`), and then takes
the supervisor's unconditional `running` write. -/
theorem cancelled_queued_job_overwritten_to_running :
    Reach 1 [] [⟨cancelRecord jobSleep 25, Phase.acquired⟩]
    ∧ (cancelRecord jobSleep 25).status = JobStatus.cancelled
    ∧ (cancelRecord jobSleep 25).startedAt = Option.none
    ∧ Step 1 [⟨cancelRecord jobSleep 25, Phase.acquired⟩]
        [⟨startRunning (cancelRecord jobSleep 25) 26, Phase.active⟩]
    ∧ (startRunning (cancelRecord jobSleep 25) 26).status = JobStatus.running
    ∧ (startRunning (cancelRecord jobSleep 25) 26).startedAt = some 26 := by
  refine ⟨?_, rfl, rfl, ?_, rfl, rfl⟩
  · have h1 : Step 1 [] [⟨jobSleep, Phase.admitted⟩] :=
      Step.admitJob [] reqSleep "job-b" 20
    have h2 : Step 1 [⟨jobSleep, Phase.admitted⟩] [⟨jobSleep, Phase.acquired⟩] :=
      Step.acquire [] [] ⟨jobSleep, Phase.admitted⟩ rfl (by decide)
    have h3 : Step 1 [⟨jobSleep, Phase.acquired⟩] [⟨cancelRecord jobSleep 25, Phase.acquired⟩] :=
      Step.cancel [] [] ⟨jobSleep, Phase.acquired⟩ 25 (Or.inl rfl)
    exact Relation.ReflTransGen.tail
      (Relation.ReflTransGen.tail (Relation.ReflTransGen.single h1) h2) h3
  · exact Step.setRunning [] [] ⟨cancelRecord jobSleep 25, Phase.acquired⟩ 26 rfl

/-! ## Concurrency-ceiling invariant -/

theorem heldCount_append_cons (pre post : List Task) (t : Task) :
    heldCount (pre ++ t :: post)
      = heldCount pre + heldCount post + (if t.phase.holdsSlot then 1 else 0) := by
  simp [heldCount, List.countP_append, List.countP_cons]
  omega

theorem runCommandWait_terminal (job : Job) (outStr errStr : String)
    (w : WaitResult) (c : CtxErr) :
    isTerminal (runCommandWait job outStr errStr w c).status = true := by
  cases c <;> cases w <;> simp [runCommandWait, isTerminal]

theorem finalizeJob_status (j : Job) (tEnd : Int) :
    (finalizeJob j tEnd).status = j.status := rfl

theorem taskOk_mem_append_cons {pre post : List Task} {t t2 : Task}
    (h : ∀ u ∈ pre ++ t :: post, TaskOk u) (hok : TaskOk t2) :
    ∀ u ∈ pre ++ t2 :: post, TaskOk u := by
  intro u hu
  rcases List.mem_append.mp hu with hl | hr
  · exact h u (List.mem_append.mpr (Or.inl hl))
  · rcases List.mem_cons.mp hr with rfl | hpost
    · exact hok
    · exact h u (List.mem_append.mpr (Or.inr (List.mem_cons.mpr (Or.inr hpost))))

theorem inv_step {maxC : Nat} {s s2 : SysState} (hinv : Inv maxC s) (hs : Step maxC s s2) :
    Inv maxC s2 := by
  obtain ⟨hheld, htask⟩ := hinv
  cases hs with
  | admitJob s req newId now =>
      constructor
      · simpa [heldCount, List.countP_append, List.countP_cons, Phase.holdsSlot] using hheld
      · intro u hu
        rcases List.mem_append.mp hu with hl | hr
        · exact htask u hl
        · rcases List.mem_singleton.mp hr with rfl
          exact ⟨fun h => by simp [executeAdmit] at h, fun h => by simp at h⟩
  | acquire pre post t hph hlt =>
      have htOk := htask t (List.mem_append.mpr (Or.inr (List.mem_cons_self t _)))
      constructor
      · rw [heldCount_append_cons] at hlt ⊢
        rw [hph] at hlt
        simp [Phase.holdsSlot] at hlt ⊢
        omega
      · refine taskOk_mem_append_cons htask ⟨fun hrun => ?_, fun h => ?_⟩
        · exact absurd (htOk.1 hrun ▸ hph) (by rw [htOk.1 hrun] at hph; simp at hph)
        · simp at h
  | setRunning pre post t now hph =>
      constructor
      · rw [heldCount_append_cons] at hheld ⊢
        rw [hph] at hheld
        simpa [Phase.holdsSlot] using hheld
      · refine taskOk_mem_append_cons htask ⟨fun _ => rfl, fun h => ?_⟩
        simp at h
  | finishWait pre post t outStr errStr w c tEnd hph =>
      constructor
      · rw [heldCount_append_cons] at hheld ⊢
        rw [hph] at hheld
        simpa [Phase.holdsSlot] using hheld
      · refine taskOk_mem_append_cons htask ⟨fun hrun => ?_, fun _ => ?_⟩
        · have := runCommandWait_terminal t.job outStr errStr w c
          rw [finalizeJob_status] at hrun
          rw [hrun] at this
          simp [isTerminal] at this
        · rw [finalizeJob_status]
          exact runCommandWait_terminal t.job outStr errStr w c
  | finishSpawnFail pre post t msg tEnd hph =>
      constructor
      · rw [heldCount_append_cons] at hheld ⊢
        rw [hph] at hheld
        simpa [Phase.holdsSlot] using hheld
      · refine taskOk_mem_append_cons htask ⟨fun hrun => ?_, fun _ => ?_⟩
        · simp [finalizeJob, spawnFailJob] at hrun
        · simp [finalizeJob, spawnFailJob, isTerminal]
  | release pre post t hph =>
      have htOk := htask t (List.mem_append.mpr (Or.inr (List.mem_cons_self t _)))
      have hterm : isTerminal t.job.status = true := htOk.2 (Or.inl hph)
      constructor
      · rw [heldCount_append_cons] at hheld ⊢
        rw [hph] at hheld
        simp [Phase.holdsSlot] at hheld ⊢
        omega
      · refine taskOk_mem_append_cons htask ⟨fun hrun => ?_, fun _ => hterm⟩
        rw [hrun] at hterm
        simp [isTerminal] at hterm
  | cancel pre post t now hst =>
      constructor
      · rw [heldCount_append_cons] at hheld ⊢
        exact hheld
      · refine taskOk_mem_append_cons htask ⟨fun hrun => ?_, fun _ => ?_⟩
        · simp [cancelRecord] at hrun
        · simp [cancelRecord, isTerminal]

theorem inv_reach {maxC : Nat} {s : SysState} (h : Reach maxC [] s) : Inv maxC s := by
  induction h with
  | refl => exact ⟨by simp [heldCount], by simp⟩
  | tail _ hstep ih => exact inv_step ih hstep

/-- Claim C4: at every reachable state, at most `max_concurrent` jobs
have status `running`: a supervisor writes `running` only while holding
one of the `max_concurrent` semaphore slots, and the slot is released
only after the job's status has become terminal. -/
theorem running_count_le_max_concurrent (maxC : Nat) (s : SysState)
    (h : Reach maxC [] s) : runningCount s ≤ maxC := by
  obtain ⟨hheld, htask⟩ := inv_reach h
  refine le_trans ?_ hheld
  exact List.countP_mono_left (fun t ht hrun => by
    have := (htask t ht).1 (of_decide_eq_true hrun)
    simp [this, Phase.holdsSlot])

theorem running_count_le_max_concurrent_witness :
    runningCount [⟨startRunning jobEcho 11, Phase.active⟩] ≤ 2 :=
  running_count_le_max_concurrent 2 [⟨startRunning jobEcho 11, Phase.active⟩]
    (Relation.ReflTransGen.tail
      (Relation.ReflTransGen.tail
        (Relation.ReflTransGen.single (Step.admitJob [] reqEcho "job-a" 10))
        (Step.acquire [] [] ⟨jobEcho, Phase.admitted⟩ rfl (by decide)))
      (Step.setRunning [] [] ⟨jobEcho, Phase.acquired⟩ 11 rfl))

/-! ## Lookup and upsert lemmas -/

theorem getJob_id (store : List Job) (id : String) (j : Job)
    (h : getJob store id = some j) : j.id = id := by
  induction store with
  | nil => simp [getJob] at h
  | cons k rest ih =>
      by_cases hk : k.id = id
      · simp [getJob, hk] at h
        rw [← h]
        exact hk
      · simp [getJob, hk] at h
        exact ih h

theorem getJob_saveJob_self (store : List Job) (j : Job) :
    getJob (saveJob store j) j.id = some j := by
  induction store with
  | nil => simp [saveJob, getJob]
  | cons k rest ih =>
      by_cases hk : k.id = j.id
      · simp [saveJob, getJob, hk]
      · simp [saveJob, getJob, hk, ih]

theorem saveJob_fresh (store : List Job) (j : Job) (h : getJob store j.id = Option.none) :
    saveJob store j = store ++ [j] := by
  induction store with
  | nil => rfl
  | cons k rest ih =>
      by_cases hk : k.id = j.id
      · simp [getJob, hk] at h
      · simp [getJob, hk] at h
        simp [saveJob, hk, ih h]

/-- Claim C6: admission builds a job with the supplied fresh id, status
`queued`, `created_at` the admission time, the 1800-second timeout
default when the request's timeout is 0 (the request value otherwise),
the `"normal"` priority default when empty; the job is persisted (added
to the store without disturbing existing records) before the supervisor
is spawned, and the returned record is the admission-time record. -/
theorem execute_admission (req : ExecuteRequest) (newId : String) (now : Int)
    (store : List Job) (hcmd : req.command ≠ "") (hfresh : getJob store newId = Option.none) :
    (executeAdmit req newId now).id = newId
    ∧ (executeAdmit req newId now).status = JobStatus.queued
    ∧ (executeAdmit req newId now).createdAt = now
    ∧ (executeAdmit req newId now).command = req.command
    ∧ (req.timeout = 0 → (executeAdmit req newId now).timeout = 1800)
    ∧ (req.timeout ≠ 0 → (executeAdmit req newId now).timeout = req.timeout)
    ∧ (req.priority = "" → (executeAdmit req newId now).priority = "normal")
    ∧ (req.priority ≠ "" → (executeAdmit req newId now).priority = req.priority)
    ∧ (executeAdmit req newId now).startedAt = Option.none
    ∧ executeEffects req newId now
        = (executeAdmit req newId now,
           [Effect.save (executeAdmit req newId now),
            Effect.spawnSupervisor (executeAdmit req newId now)])
    ∧ saveJob store (executeAdmit req newId now) = store ++ [executeAdmit req newId now]
    ∧ getJob (saveJob store (executeAdmit req newId now)) newId
        = some (executeAdmit req newId now) := by
  refine ⟨rfl, rfl, rfl, rfl, ?_, ?_, ?_, ?_, rfl, rfl, ?_, ?_⟩
  · intro h; simp [executeAdmit, h]
  · intro h; simp [executeAdmit, h]
  · intro h; simp [executeAdmit, h]
  · intro h; simp [executeAdmit, h]
  · exact saveJob_fresh store (executeAdmit req newId now) hfresh
  · exact getJob_saveJob_self store (executeAdmit req newId now)

theorem execute_admission_witness :
    ("echo" : String) ≠ ""
    ∧ getJob [] "job-a" = Option.none
    ∧ (executeAdmit reqEcho "job-a" 10).id = "job-a"
    ∧ (executeAdmit reqEcho "job-a" 10).status = JobStatus.queued
    ∧ (executeAdmit reqEcho "job-a" 10).timeout = 1800
    ∧ (executeAdmit reqEcho "job-a" 10).priority = "normal" :=
  ⟨by decide, rfl,
   (execute_admission reqEcho "job-a" 10 [] (by decide) rfl).1,
   (execute_admission reqEcho "job-a" 10 [] (by decide) rfl).2.1,
   (execute_admission reqEcho "job-a" 10 [] (by decide) rfl).2.2.2.2.1 rfl,
   (execute_admission reqEcho "job-a" 10 [] (by decide) rfl).2.2.2.2.2.2.1 rfl⟩

/-- Claim C7: `CancelJob` fails with the not-found error when the id is
absent, fails with the invalid-state error naming the current status
when the status is neither queued nor running — and in that case is
idempotent-by-failure, returning the same error on every call and
leaving the store untouched; otherwise it removes (and fires, when
registered) the cancel handle and persists the record with status
`cancelled`, `completed_at` set, and `duration_ms` computed exactly when
`started_at` is present. -/
theorem cancelJob_cases (store : List Job) (cancelIds : List String) (id : String)
    (now now2 : Int) :
    (getJob store id = Option.none → cancelJob store cancelIds id now = .error "job not found")
    ∧ (∀ job, getJob store id = some job →
        ¬(job.status = JobStatus.queued ∨ job.status = JobStatus.running) →
        cancelJob store cancelIds id now
            = .error ("job cannot be cancelled (status: " ++ job.status.str ++ ")")
          ∧ cancelJob store cancelIds id now2 = cancelJob store cancelIds id now)
    ∧ (∀ job, getJob store id = some job →
        (job.status = JobStatus.queued ∨ job.status = JobStatus.running) →
        cancelJob store cancelIds id now
            = .ok (saveJob store (cancelRecord job now), cancelIds.erase id,
                   cancelIds.contains id)
          ∧ (cancelRecord job now).status = JobStatus.cancelled
          ∧ (cancelRecord job now).completedAt = some now
          ∧ (∀ t, job.startedAt = some t → (cancelRecord job now).durationMs = now - t)
          ∧ (job.startedAt = Option.none → (cancelRecord job now).durationMs = job.durationMs)
          ∧ getJob (saveJob store (cancelRecord job now)) id = some (cancelRecord job now)) := by
  refine ⟨fun h => ?_, fun job hj hnot => ?_, fun job hj hst => ?_⟩
  · simp [cancelJob, h]
  · constructor <;> simp [cancelJob, hj, hnot]
  · refine ⟨by simp [cancelJob, hj, hst], rfl, rfl, fun t ht => ?_, fun ht => ?_, ?_⟩
    · simp [cancelRecord, ht]
    · simp [cancelRecord, ht]
    · have hid : (cancelRecord job now).id = id := getJob_id store id job hj
      rw [← hid]
      exact getJob_saveJob_self store (cancelRecord job now)

theorem cancelJob_cases_witness :
    getJob [jobSleep] "job-b" = some jobSleep
    ∧ (jobSleep.status = JobStatus.queued ∨ jobSleep.status = JobStatus.running)
    ∧ cancelJob [jobSleep] ["job-b"] "job-b" 30
        = .ok (saveJob [jobSleep] (cancelRecord jobSleep 30), (["job-b"] : List String).erase
            "job-b", (["job-b"] : List String).contains "job-b")
    ∧ (cancelRecord jobSleep 30).status = JobStatus.cancelled
    ∧ (cancelRecord jobSleep 30).completedAt = some 30 :=
  ⟨by decide, Or.inl rfl,
   ((cancelJob_cases [jobSleep] ["job-b"] "job-b" 30 31).2.2 jobSleep (by decide)
      (Or.inl rfl)).1,
   ((cancelJob_cases [jobSleep] ["job-b"] "job-b" 30 31).2.2 jobSleep (by decide)
      (Or.inl rfl)).2.1,
   ((cancelJob_cases [jobSleep] ["job-b"] "job-b" 30 31).2.2 jobSleep (by decide)
      (Or.inl rfl)).2.2.1⟩

/-- Claim C8: for every request whose path is not `/health`, the
middleware aborts with 401 exactly when the Authorization header is
missing (empty), the header does not use the Bearer scheme, the token is
empty after trimming, or the token equals no configured key; otherwise
the request proceeds.  Every request to `/health` bypasses the check,
and a missing header yields the body `"Authorization header required"`. -/
theorem auth_middleware_cases (path authHeader : String) (apiKeys : List String)
    (hp : path ≠ "/health") :
    (is401 (authMiddleware path authHeader apiKeys) = true ↔
      (authHeader = ""
        ∨ authHeader.startsWith "Bearer " = false
        ∨ (authHeader.drop 7).trim = ""
        ∨ (authHeader.drop 7).trim ∉ apiKeys))
    ∧ authMiddleware "/health" authHeader apiKeys = AuthResult.next
    ∧ (authHeader = "" →
        authMiddleware path authHeader apiKeys
          = AuthResult.abort401 "Authorization header required"
              "Please provide an Authorization header with Bearer token") := by
  refine ⟨?_, by simp [authMiddleware], fun h => by simp [authMiddleware, hp, h]⟩
  by_cases h1 : authHeader = ""
  · simp [authMiddleware, hp, h1, is401]
  · by_cases h2 : authHeader.startsWith "Bearer " = true
    · by_cases h3 : (authHeader.drop 7).trim = ""
      · simp [authMiddleware, hp, h1, h2, h3, is401]
      · by_cases h4 : (authHeader.drop 7).trim ∈ apiKeys
        · simp [authMiddleware, hp, h1, h2, h3, h4, is401]
        · simp [authMiddleware, hp, h1, h2, h3, h4, is401]
    · simp [authMiddleware, hp, h1, h2, is401]

theorem auth_middleware_cases_witness :
    ("/api/v1/commands" : String) ≠ "/health"
    ∧ (is401 (authMiddleware "/api/v1/commands" "" ["secret-key"]) = true ↔
        (("" : String) = ""
          ∨ ("" : String).startsWith "Bearer " = false
          ∨ (("" : String).drop 7).trim = ""
          ∨ (("" : String).drop 7).trim ∉ ["secret-key"]))
    ∧ authMiddleware "/health" "" ["secret-key"] = AuthResult.next
    ∧ (("" : String) = "" →
        authMiddleware "/api/v1/commands" "" ["secret-key"]
          = AuthResult.abort401 "Authorization header required"
              "Please provide an Authorization header with Bearer token") :=
  ⟨by decide,
   (auth_middleware_cases "/api/v1/commands" "" ["secret-key"] (by decide)).1,
   (auth_middleware_cases "/api/v1/commands" "" ["secret-key"] (by decide)).2.1,
   (auth_middleware_cases "/api/v1/commands" "" ["secret-key"] (by decide)).2.2⟩

/-! ## Shutdown polling loop -/

theorem shutdownPoll_success_iff (trace : List PollObs) :
    shutdownPoll trace = some true ↔
      ∃ pre o post, trace = pre ++ o :: post ∧ o.running = 0
        ∧ ∀ p ∈ pre, p.running ≠ 0 ∧ p.ctxDone = false := by
  induction trace with
  | nil =>
      simp [shutdownPoll]
  | cons o rest ih =>
      by_cases h0 : o.running = 0
      · have hstep : shutdownPoll (o :: rest) = some true := by
          simp [shutdownPoll, h0]
        rw [hstep]
        exact iff_of_true rfl ⟨[], o, rest, rfl, h0, by simp⟩
      · by_cases h1 : o.ctxDone = true
        · have hstep : shutdownPoll (o :: rest) = some false := by
            simp [shutdownPoll, h0, h1]
          rw [hstep]
          constructor
          · intro h; simp at h
          · rintro ⟨pre, o2, post, heq, h02, hpre⟩
            cases pre with
            | nil =>
                simp at heq
                obtain ⟨rfl, -⟩ := heq
                exact absurd h02 h0
            | cons p pre2 =>
                simp at heq
                obtain ⟨rfl, -⟩ := heq
                have := (hpre o (by simp)).2
                rw [h1] at this
                exact absurd this (by simp)
        · have h1' : o.ctxDone = false := by simpa using h1
          have hstep : shutdownPoll (o :: rest) = shutdownPoll rest := by
            simp [shutdownPoll, h0, h1']
          rw [hstep, ih]
          constructor
          · rintro ⟨pre, o2, post, heq, h02, hpre⟩
            refine ⟨o :: pre, o2, post, by rw [heq]; rfl, h02, ?_⟩
            intro p hp
            rcases List.mem_cons.mp hp with rfl | hmem
            · exact ⟨h0, by simpa using h1⟩
            · exact hpre p hmem
          · rintro ⟨pre, o2, post, heq, h02, hpre⟩
            cases pre with
            | nil =>
                simp at heq
                obtain ⟨rfl, -⟩ := heq
                exact absurd h02 h0
            | cons p pre2 =>
                simp at heq
                obtain ⟨rfl, hrest⟩ := heq
                exact ⟨pre2, o2, post, hrest, h02,
                  fun q hq => hpre q (List.mem_cons.mpr (Or.inr hq))⟩

theorem shutdownPoll_deadline_iff (trace : List PollObs) :
    shutdownPoll trace = some false ↔
      ∃ pre o post, trace = pre ++ o :: post ∧ o.running ≠ 0 ∧ o.ctxDone = true
        ∧ ∀ p ∈ pre, p.running ≠ 0 ∧ p.ctxDone = false := by
  induction trace with
  | nil =>
      simp [shutdownPoll]
  | cons o rest ih =>
      by_cases h0 : o.running = 0
      · have hstep : shutdownPoll (o :: rest) = some true := by
          simp [shutdownPoll, h0]
        rw [hstep]
        constructor
        · intro h; simp at h
        · rintro ⟨pre, o2, post, heq, h02, h12, hpre⟩
          cases pre with
          | nil =>
              simp at heq
              obtain ⟨rfl, -⟩ := heq
              exact absurd h0 h02
          | cons p pre2 =>
              simp at heq
              obtain ⟨rfl, -⟩ := heq
              exact absurd h0 (hpre o (by simp)).1
      · by_cases h1 : o.ctxDone = true
        · have hstep : shutdownPoll (o :: rest) = some false := by
            simp [shutdownPoll, h0, h1]
          rw [hstep]
          exact iff_of_true rfl ⟨[], o, rest, rfl, h0, h1, by simp⟩
        · have h1' : o.ctxDone = false := by simpa using h1
          have hstep : shutdownPoll (o :: rest) = shutdownPoll rest := by
            simp [shutdownPoll, h0, h1']
          rw [hstep, ih]
          constructor
          · rintro ⟨pre, o2, post, heq, h02, h12, hpre⟩
            refine ⟨o :: pre, o2, post, by rw [heq]; rfl, h02, h12, ?_⟩
            intro p hp
            rcases List.mem_cons.mp hp with rfl | hmem
            · exact ⟨h0, by simpa using h1⟩
            · exact hpre p hmem
          · rintro ⟨pre, o2, post, heq, h02, h12, hpre⟩
            cases pre with
            | nil =>
                simp at heq
                obtain ⟨rfl, -⟩ := heq
                rw [h12] at h1
                exact absurd rfl h1
            | cons p pre2 =>
                simp at heq
                obtain ⟨rfl, hrest⟩ := heq
                exact ⟨pre2, o2, post, hrest, h02, h12,
                  fun q hq => hpre q (List.mem_cons.mpr (Or.inr hq))⟩

/-- Claim C9: `Shutdown` first fires every cancel handle registered in
the cancel table, then polls the running count at the fixed 100 ms
ticker interval; it returns success exactly when the count reaches zero
at some poll with no earlier deadline firing, and returns the
deadline-expired error exactly when the deadline context fires at a
poll where the count has not yet drained (all earlier polls still
nonzero and deadline-free). -/
theorem shutdown_fire_then_poll (cancelIds : List String) (trace : List PollObs) :
    (shutdownModel cancelIds trace).1 = cancelIds
    ∧ tickerIntervalMs = 100
    ∧ ((shutdownModel cancelIds trace).2 = some true ↔
        ∃ pre o post, trace = pre ++ o :: post ∧ o.running = 0
          ∧ ∀ p ∈ pre, p.running ≠ 0 ∧ p.ctxDone = false)
    ∧ ((shutdownModel cancelIds trace).2 = some false ↔
        ∃ pre o post, trace = pre ++ o :: post ∧ o.running ≠ 0 ∧ o.ctxDone = true
          ∧ ∀ p ∈ pre, p.running ≠ 0 ∧ p.ctxDone = false) :=
  ⟨rfl, rfl, shutdownPoll_success_iff trace, shutdownPoll_deadline_iff trace⟩

theorem shutdown_fire_then_poll_witness :
    (shutdownModel ["job-a", "job-b"] [⟨2, false⟩, ⟨0, false⟩]).1 = ["job-a", "job-b"]
    ∧ (shutdownModel ["job-a", "job-b"] [⟨2, false⟩, ⟨0, false⟩]).2 = some true
    ∧ (shutdownModel ["job-a", "job-b"] [⟨2, false⟩, ⟨1, true⟩]).2 = some false :=
  ⟨(shutdown_fire_then_poll ["job-a", "job-b"] [⟨2, false⟩, ⟨0, false⟩]).1,
   (shutdown_fire_then_poll ["job-a", "job-b"] [⟨2, false⟩, ⟨0, false⟩]).2.2.1.mpr
     ⟨[⟨2, false⟩], ⟨0, false⟩, [], rfl, rfl, by decide⟩,
   (shutdown_fire_then_poll ["job-a", "job-b"] [⟨2, false⟩, ⟨1, true⟩]).2.2.2.mpr
     ⟨[⟨2, false⟩], ⟨1, true⟩, [], rfl, by decide, rfl, by decide⟩⟩

end SctAgent
